import Mathlib

/-!
Verification of the tournament-scraper extraction and selection engine.

This file gives a shallow embedding of the pure computational core of
`bankshot_monitor_multi.py` (time parsing, per-card field extraction,
selection policy, output building) together with the display-agent
predicates of `catt_monitor.py` and `smart_switcher_status.py`, and
proves, refutes or evaluates the frozen specification claims against it.

Strings are processed as `List Char`; Python's `str` operations used by
the source (`strip`, `lower`, `in`, slicing, `split('\n')`) act on code
points, which `List Char` models exactly.  Python regular expressions
appearing in the source are hand-compiled into backtracking matchers
that follow re's leftmost / ordered-alternation / greedy semantics; any
place where a greedy repetition is implemented without backtracking is
one where the repeated character class is disjoint from every character
the remainder of the pattern can accept, so the behaviour coincides.
ASCII is assumed for case folding and character classes, as in every
string the source manipulates.
-/

namespace TournamentScraper

/-- Python `str.lower()` (ASCII range, as used by the source). -/
def pyLower (s : String) : String := String.mk (s.data.map Char.toLower)

/-- Python whitespace class (`str.strip`, regex `\s`), ASCII subset. -/
def pySpace (c : Char) : Bool :=
  c = ' ' || c = '\t' || c = '\n' || c = '\r' || c = '\x0b' || c = '\x0c'

/-- Python `str.strip()` on a character list. -/
def pyStripL (cs : List Char) : List Char :=
  ((cs.dropWhile pySpace).reverse.dropWhile pySpace).reverse

/-- Python `str.strip()`. -/
def pyStrip (s : String) : String := String.mk (pyStripL s.data)

/-- Does `hay` start with `needle`? -/
def startsWithL : (needle hay : List Char) → Bool
  | [], _ => true
  | _ :: _, [] => false
  | n :: ns, h :: hs => n = h && startsWithL ns hs

/-- Python substring test `needle in hay`. -/
def containsL (hay needle : List Char) : Bool :=
  match hay with
  | [] => startsWithL needle []
  | _ :: t => startsWithL needle hay || containsL t needle

/-- Python substring test on strings. -/
def containsStr (hay needle : String) : Bool := containsL hay.data needle.data

/-! ### Time Parser (`parse_time_string`, bankshot_monitor_multi.py:68-80)

The source strips the input and tries the `strptime` formats
`'%I:%M %p'`, `'%I:%M%p'`, `'%I %p'`, `'%I%p'` in order, returning the
first success and `None` when all fail.  CPython's `_strptime` compiles
a format into a regex matched case-insensitively against the whole
string: `%I` becomes `1[0-2]|0[1-9]|[1-9]`, `%M` becomes `[0-5]\d|\d`,
`%p` becomes `am|pm`, and a literal space becomes `\s+`; the ordered
alternations (two-digit branch first) are reproduced below with
explicit fallback.  The result is the parsed 24-hour `(hour, minute)`.
-/

def digitVal (c : Char) : Nat := c.toNat - 48

/-- `%I`, two-character branches `1[0-2]|0[1-9]`. -/
def pI2 : List Char → Option (Nat × List Char)
  | a :: b :: r =>
    if a = '1' && '0' ≤ b && b ≤ '2' then some (10 + digitVal b, r)
    else if a = '0' && '1' ≤ b && b ≤ '9' then some (digitVal b, r)
    else none
  | _ => none

/-- `%I`, one-character branch `[1-9]`. -/
def pI1 : List Char → Option (Nat × List Char)
  | a :: r => if '1' ≤ a && a ≤ '9' then some (digitVal a, r) else none
  | _ => none

/-- `%M`, two-character branch `[0-5]\d`. -/
def pM2 : List Char → Option (Nat × List Char)
  | a :: b :: r =>
    if '0' ≤ a && a ≤ '5' && b.isDigit then some (10 * digitVal a + digitVal b, r)
    else none
  | _ => none

/-- `%M`, one-character branch `\d`. -/
def pM1 : List Char → Option (Nat × List Char)
  | a :: r => if a.isDigit then some (digitVal a, r) else none
  | _ => none

/-- `\s+` (a literal blank in a strptime format): at least one
whitespace character, consumed greedily.  Nothing that can follow it in
the four formats matches whitespace, so greediness is exact. -/
def pWs1 : List Char → Option (List Char)
  | c :: r => if pySpace c then some (r.dropWhile pySpace) else none
  | [] => none

/-- `%p`: `am|pm` matched case-insensitively, i.e. the character
classes `[aApP]` then `[mM]`; returns whether it was pm. -/
def pP : List Char → Option (Bool × List Char)
  | a :: b :: r =>
    if b = 'm' || b = 'M' then
      if a = 'a' || a = 'A' then some (false, r)
      else if a = 'p' || a = 'P' then some (true, r)
      else none
    else none
  | _ => none

/-- Tail of `'%I:%M %p'` after the minutes: `\s+`, `%p`, end of input. -/
def fmt1m (h m : Nat) (r : List Char) : Option (Nat × Nat × Bool) := do
  let r4 ← pWs1 r
  let (pm, r5) ← pP r4
  if r5 = [] then some (h, m, pm) else none

/-- Tail of `'%I:%M %p'` after the hour: `:`, `%M`, then `fmt1m`. -/
def fmt1h (h : Nat) : List Char → Option (Nat × Nat × Bool)
  | ':' :: r2 =>
    (do let (m, r3) ← pM2 r2; fmt1m h m r3) <|>
    (do let (m, r3) ← pM1 r2; fmt1m h m r3)
  | _ => none

/-- Format `'%I:%M %p'`. -/
def fmt1 (cs : List Char) : Option (Nat × Nat × Bool) :=
  (do let (h, r) ← pI2 cs; fmt1h h r) <|> (do let (h, r) ← pI1 cs; fmt1h h r)

/-- Tail of `'%I:%M%p'` after the minutes: `%p`, end of input. -/
def fmt2m (h m : Nat) (r : List Char) : Option (Nat × Nat × Bool) := do
  let (pm, r4) ← pP r
  if r4 = [] then some (h, m, pm) else none

/-- Tail of `'%I:%M%p'` after the hour. -/
def fmt2h (h : Nat) : List Char → Option (Nat × Nat × Bool)
  | ':' :: r2 =>
    (do let (m, r3) ← pM2 r2; fmt2m h m r3) <|>
    (do let (m, r3) ← pM1 r2; fmt2m h m r3)
  | _ => none

/-- Format `'%I:%M%p'`. -/
def fmt2 (cs : List Char) : Option (Nat × Nat × Bool) :=
  (do let (h, r) ← pI2 cs; fmt2h h r) <|> (do let (h, r) ← pI1 cs; fmt2h h r)

/-- Tail of `'%I %p'` after the hour: `\s+`, `%p`, end of input. -/
def fmt3h (h : Nat) (r : List Char) : Option (Nat × Nat × Bool) := do
  let r2 ← pWs1 r
  let (pm, r3) ← pP r2
  if r3 = [] then some (h, 0, pm) else none

/-- Format `'%I %p'` (minute defaults to 0). -/
def fmt3 (cs : List Char) : Option (Nat × Nat × Bool) :=
  (do let (h, r) ← pI2 cs; fmt3h h r) <|> (do let (h, r) ← pI1 cs; fmt3h h r)

/-- Tail of `'%I%p'` after the hour: `%p`, end of input. -/
def fmt4h (h : Nat) (r : List Char) : Option (Nat × Nat × Bool) := do
  let (pm, r2) ← pP r
  if r2 = [] then some (h, 0, pm) else none

/-- Format `'%I%p'` (minute defaults to 0). -/
def fmt4 (cs : List Char) : Option (Nat × Nat × Bool) :=
  (do let (h, r) ← pI2 cs; fmt4h h r) <|> (do let (h, r) ← pI1 cs; fmt4h h r)

/-- CPython's 12-hour to 24-hour conversion in `_strptime`. -/
def to24 (h : Nat) (pm : Bool) : Nat :=
  if pm then (if h = 12 then 12 else h + 12) else (if h = 12 then 0 else h)

/-- `parse_time_string` (bankshot_monitor_multi.py:68-80): strip, try
the four formats in order, return the 24-hour time or `none`.  The
source's `try/except` blocks make malformed input return `None`
rather than raise; the embedding is a total function. -/
def parse_time_string (s : String) : Option (Nat × Nat) :=
  let cs := pyStripL s.data
  match fmt1 cs <|> fmt2 cs <|> fmt3 cs <|> fmt4 cs with
  | some (h, m, pm) => some (to24 h pm, m)
  | none => none

/-- Two-digit zero padding, as in `strftime("%H:%M")`. -/
def pad2 (n : Nat) : String := if n < 10 then "0" ++ toString n else toString n

/-- `time.strftime("%H:%M")` on a parsed `(hour, minute)`. -/
def toHHMM (t : Nat × Nat) : String := pad2 t.1 ++ ":" ++ pad2 t.2

/-! ### Start-time regular expressions (bankshot_monitor_multi.py:283-347)

The matchers below hand-compile the patterns used by
`search_tournaments_on_page`, all applied with `re.IGNORECASE`:

priority patterns (first match of the first pattern wins):
* `(?:Tournament\s+)?Start[s]?[:\s]+(TIME)`
* `(?:Play\s+)?Start[s]?[:\s]+(TIME)`
* `Start\s+Time[:\s]+(TIME)`
* `Begins?[:\s]+(TIME)`

fallback patterns, run through `finditer` in this order:
* `(\d{1,2}:\d{2}\s*[AP]\.?M\.?)`
* `(\d{1,2}\s*[AP]\.?M\.?)`

where `TIME` is `\d{1,2}(?::\d{2})?\s*[AP]\.?M\.?`.  Matchers either
return the number of characters consumed from the given position, or
the remaining suffix, or the captured group.  Ordered alternation with
fallback reproduces re's backtracking where it is observable (the
two-digit versus one-digit branches of `\d{1,2}`, the optional
`(?::\d{2})?` group, the optional word prefixes); greedy repetitions
(`\s*`, `\s+`, `[:\s]+`, optional `s`, optional dots) need no
backtracking because no later token of any pattern accepts a character
of the repeated class at the point of failure. -/

/-- Number of leading characters satisfying `p`. -/
def countLeading (p : Char → Bool) : List Char → Nat
  | [] => 0
  | c :: r => if p c then countLeading p r + 1 else 0

/-- `[AP]\.?M\.?` (case-insensitive), as consumed length. -/
def mMer : List Char → Option Nat
  | a :: rest =>
    if a.toLower = 'a' || a.toLower = 'p' then
      match rest with
      | '.' :: m :: r2 =>
        if m.toLower = 'm' then some (3 + (if r2.head? = some '.' then 1 else 0))
        else none
      | m :: r2 =>
        if m.toLower = 'm' then some (2 + (if r2.head? = some '.' then 1 else 0))
        else none
      | [] => none
    else none
  | [] => none

/-- `\s*[AP]\.?M\.?`, as consumed length. -/
def mWsMer (cs : List Char) : Option Nat :=
  let w := countLeading pySpace cs
  (mMer (cs.drop w)).map (w + ·)

/-- `:\d{2}`, as consumed length. -/
def mColonMM : List Char → Option Nat
  | ':' :: a :: b :: _ => if a.isDigit && b.isDigit then some 3 else none
  | _ => none

/-- Tail of `TIME` after the hour digits: `(?::\d{2})?\s*[AP]\.?M\.?`,
the optional group tried greedily first. -/
def mTimeAfterHour (r : List Char) : Option Nat :=
  (do let k ← mColonMM r; (mWsMer (r.drop k)).map (k + ·)) <|> mWsMer r

/-- `TIME = \d{1,2}(?::\d{2})?\s*[AP]\.?M\.?`, as consumed length;
two hour digits tried before one. -/
def mTime (cs : List Char) : Option Nat :=
  (match cs with
   | a :: b :: r =>
     if a.isDigit && b.isDigit then (mTimeAfterHour r).map (2 + ·) else none
   | _ => none) <|>
  (match cs with
   | a :: r => if a.isDigit then (mTimeAfterHour r).map (1 + ·) else none
   | _ => none)

/-- Fallback pattern `\d{1,2}:\d{2}\s*[AP]\.?M\.?`, as consumed length. -/
def mPatA (cs : List Char) : Option Nat :=
  (match cs with
   | a :: b :: r =>
     if a.isDigit && b.isDigit then
       (do let k ← mColonMM r; (mWsMer (r.drop k)).map (k + ·)).map (2 + ·)
     else none
   | _ => none) <|>
  (match cs with
   | a :: r =>
     if a.isDigit then
       (do let k ← mColonMM r; (mWsMer (r.drop k)).map (k + ·)).map (1 + ·)
     else none
   | _ => none)

/-- Fallback pattern `\d{1,2}\s*[AP]\.?M\.?`, as consumed length. -/
def mPatB (cs : List Char) : Option Nat :=
  (match cs with
   | a :: b :: r =>
     if a.isDigit && b.isDigit then (mWsMer r).map (2 + ·) else none
   | _ => none) <|>
  (match cs with
   | a :: r => if a.isDigit then (mWsMer r).map (1 + ·) else none
   | _ => none)

/-- Case-insensitive literal, returning the remaining suffix. -/
def mLitR (lit : List Char) (cs : List Char) : Option (List Char) :=
  match lit, cs with
  | [], _ => some cs
  | l :: ls, c :: cs2 => if c.toLower = l.toLower then mLitR ls cs2 else none
  | _ :: _, [] => none

/-- Optional `s` (case-insensitive), `[s]?`. -/
def dropOptS (r : List Char) : List Char :=
  match r with
  | c :: t => if c.toLower = 's' then t else r
  | [] => r

/-- `[:\s]+`, returning the remaining suffix. -/
def mColWs1R : List Char → Option (List Char)
  | c :: r =>
    if c = ':' || pySpace c then some (r.dropWhile (fun d => d = ':' || pySpace d))
    else none
  | [] => none

/-- `\s+`, returning the remaining suffix. -/
def mWs1R : List Char → Option (List Char)
  | c :: r => if pySpace c then some (r.dropWhile pySpace) else none
  | [] => none

/-- The capturing group `(TIME)`: the exact characters `TIME` consumes. -/
def captureTime (r : List Char) : Option (List Char) :=
  (mTime r).map (fun n => r.take n)

/-- `Start[s]?[:\s]+(TIME)`, the shared core of priority patterns. -/
def coreStart (cs : List Char) : Option (List Char) := do
  let r1 ← mLitR "start".data cs
  let r3 ← mColWs1R (dropOptS r1)
  captureTime r3

/-- Priority pattern `(?:Tournament\s+)?Start[s]?[:\s]+(TIME)` at one
position (optional prefix tried first). -/
def pat1At (cs : List Char) : Option (List Char) :=
  (do let r1 ← mLitR "tournament".data cs
      let r2 ← mWs1R r1
      coreStart r2) <|> coreStart cs

/-- Priority pattern `(?:Play\s+)?Start[s]?[:\s]+(TIME)` at one position. -/
def pat2At (cs : List Char) : Option (List Char) :=
  (do let r1 ← mLitR "play".data cs
      let r2 ← mWs1R r1
      coreStart r2) <|> coreStart cs

/-- Priority pattern `Start\s+Time[:\s]+(TIME)` at one position. -/
def pat3At (cs : List Char) : Option (List Char) := do
  let r1 ← mLitR "start".data cs
  let r2 ← mWs1R r1
  let r3 ← mLitR "time".data r2
  let r4 ← mColWs1R r3
  captureTime r4

/-- Priority pattern `Begins?[:\s]+(TIME)` at one position. -/
def pat4At (cs : List Char) : Option (List Char) := do
  let r1 ← mLitR "begin".data cs
  let r3 ← mColWs1R (dropOptS r1)
  captureTime r3

/-- `re.search`: try the position matcher at each start position from
the left, first success wins. -/
def searchAt (m : List Char → Option α) : List Char → Option α
  | [] => m []
  | c :: rest => (m (c :: rest)) <|> searchAt m rest

/-- The priority-pattern loop (bankshot_monitor_multi.py:283-295):
each pattern is `re.search`ed over the whole card text in order; the
first match found has its group stripped and returned. -/
def priorityTime (text : List Char) : Option String :=
  (searchAt pat1At text <|> searchAt pat2At text <|>
   searchAt pat3At text <|> searchAt pat4At text).map
    (fun cap => String.mk (pyStripL cap))

/-- `re.finditer`: successive non-overlapping leftmost matches; yields
`(start, length)` pairs.  A successful match advances past its end
(recorded in the `skip` counter so the recursion stays structural), a
failure advances one position. -/
def finditerAux (p : List Char → Option Nat) : Nat → Nat → List Char → List (Nat × Nat)
  | _, _, [] => []
  | skip + 1, pos, _ :: rest => finditerAux p skip (pos + 1) rest
  | 0, pos, c :: rest =>
    match p (c :: rest) with
    | some (n + 1) => (pos, n + 1) :: finditerAux p n (pos + 1) rest
    | _ => finditerAux p 0 (pos + 1) rest

/-- `re.finditer` from position 0. -/
def finditer (p : List Char → Option Nat) (cs : List Char) : List (Nat × Nat) :=
  finditerAux p 0 0 cs

/-- One entry of `all_times_found`: the stripped matched time and its
surrounding context window. -/
structure TimeInfo where
  time : String
  context : String
deriving DecidableEq, Repr

/-- Python slice `cs[a:b]`. -/
def sliceL (cs : List Char) (a b : Nat) : List Char := (cs.drop a).take (b - a)

/-- The `all_times_found` entries contributed by one pattern: for each
match, `time` is `match.group(1).strip()` and `context` is the window
`card_text[max(0, start-50):min(len, end+50)]`. -/
def timeInfosFor (p : List Char → Option Nat) (cs : List Char) : List TimeInfo :=
  (finditer p cs).map (fun se =>
    let s := se.1
    let e := se.1 + se.2
    { time := String.mk (pyStripL (sliceL cs s e)),
      context := String.mk (sliceL cs (s - 50) (min cs.length (e + 50))) })

/-- `all_times_found` (bankshot_monitor_multi.py:302-319): all matches
of the first fallback pattern, then all matches of the second. -/
def allTimesFound (cs : List Char) : List TimeInfo :=
  timeInfosFor mPatA cs ++ timeInfosFor mPatB cs

/-- `exclude_keywords` (bankshot_monitor_multi.py:325-326). -/
def excludeKeywords : List String :=
  ["registration", "check-in", "check in", "checkin", "sign-in",
   "signin", "sign in", "doors", "door open"]

/-- A collected time is excluded when its lower-cased context contains
any exclusion keyword (bankshot_monitor_multi.py:328-330). -/
def isExcluded (ti : TimeInfo) : Bool :=
  excludeKeywords.any (fun k => containsStr (pyLower ti.context) k)

/-- The no-priority-match scan (bankshot_monitor_multi.py:297-347):
keep non-excluded times and use the last one; if every collected time
was excluded, use the last collected entry anyway. -/
def fallbackScan (cs : List Char) : Option String :=
  let all := allTimesFound cs
  let filtered := all.filter (fun ti => !isExcluded ti)
  match filtered.getLast? with
  | some ti => some ti.time
  | none => (all.getLast?).map TimeInfo.time

/-- Full start-time extraction for one card: the priority-pattern
result when it produced a non-empty string (Python's
`if not start_time_str:`), the fallback scan otherwise. -/
def extractStartTime (text : String) : Option String :=
  match priorityTime text.data with
  | some s => if s = "" then fallbackScan text.data else some s
  | none => fallbackScan text.data

/-! ### Remaining field extraction (bankshot_monitor_multi.py:188-436) -/

/-- Configured venue name (bankshot_monitor_multi.py:26). -/
def VENUE_NAME : String := "Bankshot Billiards"

/-- Configured venue city (bankshot_monitor_multi.py:27). -/
def VENUE_CITY : String := "Hilliard"

/-- The date pattern `\d{4}/\d{2}/\d{2}` at one position, returning
the matched ten characters. -/
def mDateAt : List Char → Option (List Char)
  | a :: b :: c :: d :: '/' :: e :: f :: '/' :: g :: h :: _ =>
    if a.isDigit && b.isDigit && c.isDigit && d.isDigit &&
       e.isDigit && f.isDigit && g.isDigit && h.isDigit then
      some [a, b, c, d, '/', e, f, '/', g, h]
    else none
  | _ => none

/-- `re.search(r'(\d{4}/\d{2}/\d{2})', card_text)`
(bankshot_monitor_multi.py:274-275). -/
def extractDate (cs : List Char) : Option String :=
  (searchAt mDateAt cs).map String.mk

/-- Numeric value of a digit run. -/
def digitsVal (ds : List Char) : Nat := ds.foldl (fun acc c => 10 * acc + digitVal c) 0

/-- `(\d+)%\s*Complete` (case-insensitive) at one position: a maximal
digit run (anything shorter leaves a digit where `%` is required, so
greediness is exact), `%`, optional whitespace, the literal
`complete`. -/
def mPctAt (cs : List Char) : Option Nat :=
  let ds := cs.takeWhile Char.isDigit
  if ds.isEmpty then none
  else
    match cs.drop ds.length with
    | '%' :: r =>
      match mLitR "complete".data (r.dropWhile pySpace) with
      | some _ => some (digitsVal ds)
      | none => none
    | _ => none

/-- `re.search(r'(\d+)%\s*Complete', card_text, re.IGNORECASE)`
(bankshot_monitor_multi.py:375-377), as the parsed percentage. -/
def completionPct (cs : List Char) : Option Nat := searchAt mPctAt cs

/-- `status_indicators` (bankshot_monitor_multi.py:358-362), in the
dict's insertion order. -/
def statusIndicators : List (String × List String) :=
  [("In Progress", ["In Progress", "Live", "Active", "Playing"]),
   ("Upcoming", ["Upcoming", "Scheduled", "Future"]),
   ("Completed", ["Completed", "Finished", "Final", "Ended"])]

/-- Status extraction (bankshot_monitor_multi.py:354-404): explicit
keywords first, then the completion percentage, then the date compared
with today (string comparison of `YYYY/MM/DD` texts), else Unknown. -/
def extractStatus (text : List Char) (date : Option String) (today : String) : String :=
  match statusIndicators.find? (fun si => si.2.any (fun k => containsL text k.data)) with
  | some si => si.1
  | none =>
    match completionPct text with
    | some pct =>
      if pct = 100 then "Completed"
      else if pct = 0 then "Upcoming"
      else if 0 < pct ∧ pct < 100 then "In Progress"
      else "Unknown"
    | none =>
      match date with
      | some d =>
        if d = today then "Upcoming"
        else if d < today then "Completed"
        else "Unknown"
      | none => "Unknown"

/-- One card as the page-source provider hands it over: its visible
text plus the optional nested hints the DOM lookups would find (the
`h1`–`h5` heading texts in tag order, the text of a `title`-classed
element, the `href` of a `/tournaments/` link). -/
structure Card where
  text : String
  headings : List String
  titleHint : Option String
  linkHint : Option String
deriving DecidableEq, Repr

/-- Name strategy 1 (bankshot_monitor_multi.py:234-242): first heading
whose text is truthy, strips to something truthy, and does not contain
the venue name; the stripped text is the name. -/
def nameFromHeadings (headings : List String) : Option String :=
  (headings.find? (fun h =>
      !(h == "") && !(pyStrip h == "") && !containsStr h VENUE_NAME)).map pyStrip

/-- Name strategy 2 (bankshot_monitor_multi.py:245-252): the
title-classed element's text, if truthy before and after stripping. -/
def nameFromTitle (t : Option String) : Option String :=
  match t with
  | some s => if !(s == "") && !(pyStrip s == "") then some (pyStrip s) else none
  | none => none

/-- Name strategy 3 (bankshot_monitor_multi.py:255-267): first
stripped line that is truthy, longer than 5 characters, contains
neither venue nor city, does not begin with the date pattern, and is
not the "Showing tournaments" banner. -/
def nameFromLines (text : String) : Option String :=
  ((text.splitOn "\n").map pyStrip).find? (fun line =>
    !(line == "") && 5 < line.length &&
    !containsStr line VENUE_NAME && !containsStr line VENUE_CITY &&
    (mDateAt line.data).isNone && !containsStr line "Showing tournaments")

/-- Name extraction, strategies in priority order with the synthesized
fallback (bankshot_monitor_multi.py:230-271). -/
def extractName (c : Card) : String :=
  match nameFromHeadings c.headings with
  | some n => n
  | none =>
    match nameFromTitle c.titleHint with
    | some n => n
    | none =>
      match nameFromLines c.text with
      | some n => n
      | none => "Tournament at " ++ VENUE_NAME

/-- `re.sub(r'^\d{4}/\d{2}/\d{2}\s+', '', name)`
(bankshot_monitor_multi.py:420): drop a leading date followed by at
least one whitespace character, whitespace taken greedily. -/
def stripDatePrefixName (name : String) : String :=
  if (mDateAt name.data).isSome then
    match name.data.drop 10 with
    | c :: _ =>
      if pySpace c then String.mk ((name.data.drop 10).dropWhile pySpace) else name
    | [] => name
  else name

/-- `re.sub(r'-+', '-', s)`: collapse runs of hyphens. -/
def collapseDashes : List Char → List Char
  | [] => []
  | [c] => [c]
  | a :: b :: r =>
    if a = '-' && b = '-' then collapseDashes (b :: r)
    else a :: collapseDashes (b :: r)

/-- Python `str.strip('-')`. -/
def stripDashes (cs : List Char) : List Char :=
  ((cs.dropWhile (· = '-')).reverse.dropWhile (· = '-')).reverse

/-- The URL slug (bankshot_monitor_multi.py:422-423): lower-case,
spaces to hyphens, drop characters outside `[a-z0-9-]`, collapse
repeated hyphens, strip outer hyphens. -/
def slugify (nameForUrl : String) : String :=
  let s1 := (pyLower nameForUrl).data.map (fun c => if c = ' ' then '-' else c)
  let s2 := s1.filter (fun c => ('a' ≤ c && c ≤ 'z') || c.isDigit || c = '-')
  String.mk (stripDashes (collapseDashes s2))

/-- The synthesized tournament URL (bankshot_monitor_multi.py:414-424). -/
def mkUrl (date name : String) : String :=
  "https://digitalpool.com/tournaments/" ++
    String.mk (date.data.filter (fun c => !(c = '/'))) ++ "-" ++
    slugify (stripDatePrefixName name) ++ "/"

/-- URL construction (bankshot_monitor_multi.py:407-425): the link
hint when the DOM had one, otherwise synthesized from truthy date and
name, otherwise absent. -/
def extractUrl (link : Option String) (date : Option String) (name : String) : Option String :=
  match link with
  | some href => some href
  | none =>
    match date with
    | some d => if !(d == "") && !(name == "") then some (mkUrl d name) else none
    | none => none

/-- One extracted tournament record, the dict built at
bankshot_monitor_multi.py:427-436. -/
structure TournamentInfo where
  name : String
  venue : String
  date : Option String
  start_time : Option String
  start_time_parsed : Option String
  status : String
  url : Option String
  found_at : String
deriving DecidableEq, Repr

/-- The Field Extractor for one card (the per-card body of
`search_tournaments_on_page`, bankshot_monitor_multi.py:188-436):
discard the card unless both venue and city occur in its text, then
extract name, date, start time (raw and normalized), status and URL.
`today` is `date.today().strftime("%Y/%m/%d")`, `now` the capture
timestamp. -/
def extractCard (today now : String) (c : Card) : Option TournamentInfo :=
  if !containsStr c.text VENUE_NAME then none
  else if !containsStr c.text VENUE_CITY then none
  else
    let name := extractName c
    let date := extractDate c.text.data
    let stRaw := extractStartTime c.text
    let stParsed :=
      match stRaw with
      | some s => if s = "" then none else (parse_time_string s).map toHHMM
      | none => none
    let status := extractStatus c.text.data date today
    some { name := name,
           venue := VENUE_NAME ++ ", " ++ VENUE_CITY,
           date := date,
           start_time := stRaw,
           start_time_parsed := stParsed,
           status := status,
           url := extractUrl c.linkHint date name,
           found_at := now }

/-- `search_tournaments_on_page` over a list of cards: extract each,
keeping the successful records in page order. -/
def search_tournaments_on_page (today now : String) (cards : List Card) : List TournamentInfo :=
  cards.filterMap (extractCard today now)

/-- The Card Filter (`get_all_todays_tournaments`,
bankshot_monitor_multi.py:547-551): keep records whose date equals
today; an absent date never equals the string. -/
def get_all_todays_tournaments (today now : String) (cards : List Card) : List TournamentInfo :=
  (search_tournaments_on_page today now cards).filter (fun t => t.date == some today)

/-! ### Selection Policy (`determine_which_tournament_to_display`,
bankshot_monitor_multi.py:577-631) -/

/-- Python string comparison `a <= b` (lexicographic by code point),
as CPython's `sorted` applies it to the `"HH:MM"` keys. -/
def pyListLe : List Char → List Char → Bool
  | [], _ => true
  | _ :: _, [] => false
  | a :: as, b :: bs =>
    if a.toNat < b.toNat then true
    else if b.toNat < a.toNat then false
    else pyListLe as bs

/-- Python `a <= b` on strings. -/
def pyStrLe (a b : String) : Bool := pyListLe a.data b.data

/-- The sort key `x['start_time_parsed'] if x['start_time_parsed'] else "00:00"`:
a falsy (absent or empty) normalized time sorts as `"00:00"`. -/
def timeKey (t : TournamentInfo) : String :=
  match t.start_time_parsed with
  | some s => if s = "" then "00:00" else s
  | none => "00:00"

/-- Ordering used for `sorted(..., reverse=True)`: stable descending
by `timeKey`. -/
def descRel (a b : TournamentInfo) : Prop := pyStrLe (timeKey b) (timeKey a) = true

/-- Ordering used for `sorted(...)`: stable ascending by `timeKey`. -/
def ascRel (a b : TournamentInfo) : Prop := pyStrLe (timeKey a) (timeKey b) = true

instance : DecidableRel descRel := fun a b =>
  inferInstanceAs (Decidable (pyStrLe (timeKey b) (timeKey a) = true))

instance : DecidableRel ascRel := fun a b =>
  inferInstanceAs (Decidable (pyStrLe (timeKey a) (timeKey b) = true))

/-- The Selection Policy.  Python's stable `sorted` is modelled by
`List.insertionSort` with the corresponding relation (stable, so
extensionally identical).  The source takes `[0]` of a provably
non-empty list; `head?` packages the same access. -/
def determine_which_tournament_to_display (ts : List TournamentInfo) : Option TournamentInfo :=
  match ts with
  | [] => none
  | _ :: _ =>
    let inProgress := ts.filter (fun t => t.status == "In Progress")
    if inProgress.isEmpty then
      let notCompleted := ts.filter (fun t => !(t.status == "Completed"))
      if notCompleted.isEmpty then none
      else (List.insertionSort ascRel notCompleted).head?
    else
      if 1 < inProgress.length then (List.insertionSort descRel inProgress).head?
      else inProgress.head?

/-! ### Output Builder (`save_tournament_data`,
bankshot_monitor_multi.py:662-713) and the display agents -/

/-- The persisted record schema. -/
structure OutputData where
  tournament_name : String
  tournament_url : Option String
  venue : Option String
  date : Option String
  start_time : Option String
  status : Option String
  payout_data : Option String
  last_updated : String
  display_tournament : Bool
deriving DecidableEq, Repr

/-- Payout-dataset choice (bankshot_monitor_multi.py:677-681):
defaults to the 15-position dataset, switched to the 20-position one
when the (truthy) name lower-cases to something containing
`"8-ball"`. -/
def payoutFor (name : String) : String :=
  if !(name == "") && containsStr (pyLower name) "8-ball" then "payouts20.json"
  else "payouts15.json"

/-- Display eligibility written by the Output Builder
(bankshot_monitor_multi.py:684): In Progress or Upcoming. -/
def shouldDisplayFlag (status : String) : Bool :=
  status == "In Progress" || status == "Upcoming"

/-- The Output Builder: the sentinel record for "none", otherwise the
selected record serialized with payout reference and display flag;
`now` is the `last_updated` timestamp. -/
def buildOutput : Option TournamentInfo → String → OutputData
  | none, now =>
    { tournament_name := "No tournaments to display",
      tournament_url := none, venue := none, date := none,
      start_time := none, status := none, payout_data := none,
      last_updated := now, display_tournament := false }
  | some t, now =>
    { tournament_name := t.name,
      tournament_url := t.url,
      venue := some t.venue,
      date := t.date,
      start_time := t.start_time,
      status := some t.status,
      payout_data := some (payoutFor t.name),
      last_updated := now,
      display_tournament := shouldDisplayFlag t.status }

/-- One full poll cycle on already-fetched cards:
extract → filter to today → select → build the persisted record. -/
def fullPipeline (cards : List Card) (today now : String) : OutputData :=
  buildOutput (determine_which_tournament_to_display
    (get_all_todays_tournaments today now cards)) now

/-- Status values `catt_monitor.should_display_tournament` accepts
(catt_monitor.py:149). -/
def cattStatusWhitelist : List String :=
  ["In Progress", "Upcoming", "in_progress", "upcoming"]

/-- `should_display_tournament` (catt_monitor.py:131-156): refuse when
the name mentions "no tournament" or the status is outside the
whitelist (an absent status compares unequal to every entry), else
return the persisted flag. -/
def catt_should_display_tournament (d : OutputData) : Bool :=
  if containsStr (pyLower d.tournament_name) "no tournament" then false
  else if !(match d.status with
            | some s => cattStatusWhitelist.contains s
            | none => false) then false
  else d.display_tournament

/-- `should_display_tournament` (smart_switcher_status.py:49-78):
refuse when the name is the sentinel or the URL is falsy (absent or
empty), else return the persisted flag. -/
def smart_should_display_tournament (d : OutputData) : Bool :=
  if d.tournament_name == "No tournaments in progress" ||
     (match d.tournament_url with | none => true | some u => u == "") then false
  else d.display_tournament

/-! ### Auxiliary definitions for the claims -/

/-- Modelled from the spec: canonical rendering of the accepted format
`hour:minute meridiem` (e.g. `"7:00 PM"`). -/
def specFmtColonSpace (h m : Nat) (pm : Bool) : String :=
  toString h ++ ":" ++ pad2 m ++ " " ++ (if pm then "PM" else "AM")

/-- Modelled from the spec: canonical rendering of the accepted format
`hour:minuteMeridiem` (e.g. `"7:00PM"`). -/
def specFmtColon (h m : Nat) (pm : Bool) : String :=
  toString h ++ ":" ++ pad2 m ++ (if pm then "PM" else "AM")

/-- Modelled from the spec: canonical rendering of the accepted format
`hour meridiem` (e.g. `"7 PM"`). -/
def specFmtSpace (h : Nat) (pm : Bool) : String :=
  toString h ++ " " ++ (if pm then "PM" else "AM")

/-- Modelled from the spec: canonical rendering of the accepted format
`hourMeridiem` (e.g. `"7PM"`). -/
def specFmtBare (h : Nat) (pm : Bool) : String :=
  toString h ++ (if pm then "PM" else "AM")

/-- Forget the capture timestamp of a record. -/
def eraseFoundAt (t : TournamentInfo) : TournamentInfo := { t with found_at := "" }

/-- Forget the `last_updated` timestamp of a persisted record. -/
def eraseLastUpdated (d : OutputData) : OutputData := { d with last_updated := "" }

/-- The sanity checks under which `catt_monitor` follows the persisted
flag: a whitelisted status and a name not marked "no tournament". -/
def cattChecksPass (d : OutputData) : Bool :=
  !containsStr (pyLower d.tournament_name) "no tournament" &&
  (match d.status with
   | some s => cattStatusWhitelist.contains s
   | none => false)

/-- The sanity checks under which `smart_switcher_status` follows the
persisted flag: not the sentinel name, and a present non-empty URL. -/
def smartChecksPass (d : OutputData) : Bool :=
  !(d.tournament_name == "No tournaments in progress") &&
  (match d.tournament_url with
   | none => false
   | some u => !(u == ""))

/-- The spec's start-time fallback example card. -/
def c1Card : String := "Registration: 6:00 PM\nDoors: 6:30 PM"

/-- The spec's start-time precedence example card. -/
def c4Card : String := "Registration: 6:00 PM\nTournament Start: 7:00 PM"

/-- Record A of the spec's multiple-InProgress selection example. -/
def c2A : TournamentInfo :=
  { name := "A", venue := "Bankshot Billiards, Hilliard", date := some "2025/11/19",
    start_time := some "6:00 PM", start_time_parsed := some "18:00",
    status := "In Progress", url := none, found_at := "f" }

/-- Record B of the spec's multiple-InProgress selection example. -/
def c2B : TournamentInfo :=
  { name := "B", venue := "Bankshot Billiards, Hilliard", date := some "2025/11/19",
    start_time := some "8:00 PM", start_time_parsed := some "20:00",
    status := "In Progress", url := none, found_at := "f" }

/-- An Upcoming record for the none-in-progress selection example. -/
def c3A : TournamentInfo :=
  { name := "A", venue := "Bankshot Billiards, Hilliard", date := some "2025/11/19",
    start_time := some "5:00 PM", start_time_parsed := some "17:00",
    status := "Upcoming", url := none, found_at := "f" }

/-- A Completed record for the selection examples. -/
def c3B : TournamentInfo :=
  { name := "B", venue := "Bankshot Billiards, Hilliard", date := some "2025/11/19",
    start_time := some "3:00 PM", start_time_parsed := some "15:00",
    status := "Completed", url := none, found_at := "f" }

/-- A persisted record whose flag is true but whose name happens to
contain "no tournament" ("Reno Tournament Series" — producible by the
Output Builder itself), refuting flag-verbatim trust for
`catt_monitor`. -/
def c8CattRecord : OutputData :=
  buildOutput (some
    { name := "Reno Tournament Series", venue := "Bankshot Billiards, Hilliard",
      date := some "2025/11/19", start_time := some "7:00 PM",
      start_time_parsed := some "19:00", status := "In Progress",
      url := some "https://digitalpool.com/tournaments/x/", found_at := "f" })
    "2025-11-19 21:00:00"

/-- A persisted record whose flag is true but whose URL is absent,
refuting flag-verbatim trust for `smart_switcher_status`. -/
def c8SmartRecord : OutputData :=
  buildOutput (some
    { name := "Tuesday 9-Ball", venue := "Bankshot Billiards, Hilliard",
      date := none, start_time := some "7:00 PM",
      start_time_parsed := some "19:00", status := "In Progress",
      url := none, found_at := "f" })
    "2025-11-19 21:00:00"

/-- A persisted record passing both agents' sanity checks. -/
def c8GoodRecord : OutputData :=
  buildOutput (some
    { name := "Tuesday 9-Ball", venue := "Bankshot Billiards, Hilliard",
      date := some "2025/11/19", start_time := some "7:00 PM",
      start_time_parsed := some "19:00", status := "In Progress",
      url := some "https://digitalpool.com/tournaments/x/", found_at := "f" })
    "2025-11-19 21:00:00"

/-! ### Properties of the Python string comparison -/

theorem pyListLe_refl : ∀ as : List Char, pyListLe as as = true := by
  intro as
  induction as with
  | nil => rfl
  | cons a t ih => simp [pyListLe, ih]

theorem pyListLe_total : ∀ as bs : List Char,
    pyListLe as bs = true ∨ pyListLe bs as = true := by
  intro as
  induction as with
  | nil => intro bs; left; rfl
  | cons a t ih =>
    intro bs
    cases bs with
    | nil => right; rfl
    | cons b u =>
      rcases Nat.lt_trichotomy a.toNat b.toNat with h | h | h
      · left; simp [pyListLe, h]
      · have h1 : ¬a.toNat < b.toNat := by omega
        have h2 : ¬b.toNat < a.toNat := by omega
        simpa [pyListLe, h1, h2] using ih u
      · right; simp [pyListLe, h]

theorem pyListLe_trans : ∀ as bs cs : List Char,
    pyListLe as bs = true → pyListLe bs cs = true → pyListLe as cs = true := by
  intro as
  induction as with
  | nil => intro bs cs _ _; rfl
  | cons a t ih =>
    intro bs cs h1 h2
    cases bs with
    | nil => simp [pyListLe] at h1
    | cons b u =>
      cases cs with
      | nil => simp [pyListLe] at h2
      | cons c v =>
        by_cases hab : a.toNat < b.toNat
        · by_cases hbc : b.toNat < c.toNat
          · simp [pyListLe, show a.toNat < c.toNat by omega]
          · by_cases hcb : c.toNat < b.toNat
            · simp [pyListLe, hbc, hcb] at h2
            · simp [pyListLe, show a.toNat < c.toNat by omega]
        · by_cases hba : b.toNat < a.toNat
          · simp [pyListLe, hab, hba] at h1
          · simp only [pyListLe, if_neg hab, if_neg hba] at h1
            by_cases hbc : b.toNat < c.toNat
            · simp [pyListLe, show a.toNat < c.toNat by omega]
            · by_cases hcb : c.toNat < b.toNat
              · simp [pyListLe, hbc, hcb] at h2
              · simp only [pyListLe, if_neg hbc, if_neg hcb] at h2
                have hac : ¬a.toNat < c.toNat := by omega
                have hca : ¬c.toNat < a.toNat := by omega
                simpa [pyListLe, hac, hca] using ih u v h1 h2

instance : IsTotal TournamentInfo descRel :=
  ⟨fun a b => pyListLe_total (timeKey b).data (timeKey a).data⟩

instance : IsTrans TournamentInfo descRel :=
  ⟨fun _ _ _ h1 h2 => pyListLe_trans _ _ _ h2 h1⟩

instance : IsTotal TournamentInfo ascRel :=
  ⟨fun a b => pyListLe_total (timeKey a).data (timeKey b).data⟩

instance : IsTrans TournamentInfo ascRel :=
  ⟨fun _ _ _ h1 h2 => pyListLe_trans _ _ _ h1 h2⟩

/-! ### Facts about the Selection Policy -/

theorem head_sort_mem {r : TournamentInfo → TournamentInfo → Prop} [DecidableRel r]
    {l : List TournamentInfo} {x : TournamentInfo}
    (hx : (List.insertionSort r l).head? = some x) : x ∈ l := by
  have hmem : x ∈ List.insertionSort r l := by
    cases h : List.insertionSort r l with
    | nil => rw [h] at hx; cases hx
    | cons a t =>
      rw [h] at hx
      simp only [List.head?_cons, Option.some.injEq] at hx
      rw [← hx]
      exact List.mem_cons_self a t
  exact (List.mem_insertionSort r).mp hmem

theorem head_sort_rel {r : TournamentInfo → TournamentInfo → Prop} [DecidableRel r]
    [IsTotal TournamentInfo r] [IsTrans TournamentInfo r]
    {l : List TournamentInfo} {x : TournamentInfo}
    (hx : (List.insertionSort r l).head? = some x) :
    ∀ y ∈ l, y = x ∨ r x y := by
  intro y hy
  have hs := List.sorted_insertionSort r l
  have hy2 : y ∈ List.insertionSort r l := (List.mem_insertionSort r).mpr hy
  cases h : List.insertionSort r l with
  | nil => rw [h] at hx; cases hx
  | cons a t =>
    rw [h] at hx hy2 hs
    simp only [List.head?_cons, Option.some.injEq] at hx
    subst hx
    rcases List.mem_cons.mp hy2 with h1 | h1
    · left; exact h1
    · right; exact List.rel_of_sorted_cons hs y h1

theorem sort_cons_of_ne_nil (r : TournamentInfo → TournamentInfo → Prop) [DecidableRel r]
    {l : List TournamentInfo} (h : l ≠ []) :
    ∃ x xs, List.insertionSort r l = x :: xs := by
  cases hq : List.insertionSort r l with
  | nil =>
    have hl := (List.perm_insertionSort r l).length_eq
    rw [hq] at hl
    exact absurd (List.eq_nil_of_length_eq_zero hl.symm) h
  | cons x xs => exact ⟨x, xs, rfl⟩

theorem determine_cons (a : TournamentInfo) (l : List TournamentInfo) :
    determine_which_tournament_to_display (a :: l) =
      (if ((a :: l).filter (fun t => t.status == "In Progress")).isEmpty then
        (if ((a :: l).filter (fun t => !(t.status == "Completed"))).isEmpty then none
         else
           (List.insertionSort ascRel
             ((a :: l).filter (fun t => !(t.status == "Completed")))).head?)
      else
        (if 1 < ((a :: l).filter (fun t => t.status == "In Progress")).length then
          (List.insertionSort descRel
            ((a :: l).filter (fun t => t.status == "In Progress"))).head?
         else ((a :: l).filter (fun t => t.status == "In Progress")).head?)) := rfl

/-- C2.  For every candidate set containing at least one InProgress
record the Selection Policy returns an InProgress record from the set,
and its normalized start-time key (absent times keyed `"00:00"`) is the
latest among all InProgress candidates. -/
theorem claim_C2 (ts : List TournamentInfo)
    (h : ∃ t ∈ ts, t.status = "In Progress") :
    ∃ r, determine_which_tournament_to_display ts = some r ∧ r ∈ ts ∧
      r.status = "In Progress" ∧
      ∀ t ∈ ts, t.status = "In Progress" → pyStrLe (timeKey t) (timeKey r) = true := by
  obtain ⟨t0, ht0, hs0⟩ := h
  cases ts with
  | nil => cases ht0
  | cons a l =>
    have ht0m : t0 ∈ (a :: l).filter (fun t => t.status == "In Progress") :=
      List.mem_filter.mpr ⟨ht0, by simp [hs0]⟩
    have hne : (a :: l).filter (fun t => t.status == "In Progress") ≠ [] :=
      List.ne_nil_of_mem ht0m
    have hEm : ((a :: l).filter (fun t => t.status == "In Progress")).isEmpty = false := by
      cases hi : (a :: l).filter (fun t => t.status == "In Progress") with
      | nil => exact absurd hi hne
      | cons x xs => rfl
    rw [determine_cons, hEm]
    rw [if_neg Bool.false_ne_true]
    by_cases hlen : 1 < ((a :: l).filter (fun t => t.status == "In Progress")).length
    · rw [if_pos hlen]
      obtain ⟨x, xs, hx⟩ := sort_cons_of_ne_nil descRel hne
      have hhead : (List.insertionSort descRel
          ((a :: l).filter (fun t => t.status == "In Progress"))).head? = some x := by
        rw [hx]; rfl
      have hmem := head_sort_mem hhead
      refine ⟨x, hhead, List.mem_of_mem_filter hmem, ?_, ?_⟩
      · exact eq_of_beq (List.mem_filter.mp hmem).2
      · intro t ht hstt
        have htm : t ∈ (a :: l).filter (fun t => t.status == "In Progress") :=
          List.mem_filter.mpr ⟨ht, by simp [hstt]⟩
        rcases head_sort_rel hhead t htm with rfl | hr
        · exact pyListLe_refl _
        · exact hr
    · rw [if_neg hlen]
      obtain ⟨x, xs, hx⟩ : ∃ x xs,
          (a :: l).filter (fun t => t.status == "In Progress") = x :: xs := by
        cases hi : (a :: l).filter (fun t => t.status == "In Progress") with
        | nil => exact absurd hi hne
        | cons x xs => exact ⟨x, xs, rfl⟩
      have hxs : xs = [] := by
        have := congrArg List.length hx
        simp only [List.length_cons] at this
        have : xs.length = 0 := by omega
        exact List.eq_nil_of_length_eq_zero this
      subst hxs
      have hmem : x ∈ (a :: l).filter (fun t => t.status == "In Progress") := by
        rw [hx]; exact List.mem_cons_self x []
      refine ⟨x, by rw [hx]; rfl, List.mem_of_mem_filter hmem, ?_, ?_⟩
      · exact eq_of_beq (List.mem_filter.mp hmem).2
      · intro t ht hstt
        have htm : t ∈ (a :: l).filter (fun t => t.status == "In Progress") :=
          List.mem_filter.mpr ⟨ht, by simp [hstt]⟩
        rw [hx] at htm
        rcases List.mem_cons.mp htm with rfl | h1
        · exact pyListLe_refl _
        · cases h1

/-- C2 witness: from A (InProgress, 18:00) and B (InProgress, 20:00)
the policy selects an InProgress record with maximal key, and that
record is B. -/
theorem claim_C2_witness :
    (∃ r, determine_which_tournament_to_display [c2A, c2B] = some r ∧ r ∈ [c2A, c2B] ∧
      r.status = "In Progress" ∧
      ∀ t ∈ [c2A, c2B], t.status = "In Progress" →
        pyStrLe (timeKey t) (timeKey r) = true) ∧
    determine_which_tournament_to_display [c2A, c2B] = some c2B :=
  ⟨claim_C2 [c2A, c2B] (by decide), by decide⟩

/-- C3.  When no candidate is InProgress, the Selection Policy drops
all Completed records; if every record was Completed (or the set is
empty) it returns none, otherwise it returns a non-Completed record
from the set with the earliest normalized start-time key (absent times
keyed `"00:00"`). -/
theorem claim_C3 (ts : List TournamentInfo)
    (hnp : ∀ t ∈ ts, t.status ≠ "In Progress") :
    ((∀ t ∈ ts, t.status = "Completed") →
      determine_which_tournament_to_display ts = none) ∧
    ((∃ t ∈ ts, t.status ≠ "Completed") →
      ∃ r, determine_which_tournament_to_display ts = some r ∧ r ∈ ts ∧
        r.status ≠ "Completed" ∧
        ∀ t ∈ ts, t.status ≠ "Completed" → pyStrLe (timeKey r) (timeKey t) = true) := by
  cases ts with
  | nil =>
    exact ⟨fun _ => rfl, fun h => absurd h (by simp)⟩
  | cons a l =>
    have hfIP : (a :: l).filter (fun t => t.status == "In Progress") = [] :=
      List.filter_eq_nil_iff.mpr (fun t ht => by
        simpa using hnp t ht)
    have hEmIP : ((a :: l).filter (fun t => t.status == "In Progress")).isEmpty = true := by
      rw [hfIP]; rfl
    constructor
    · intro hall
      have hfNC : (a :: l).filter (fun t => !(t.status == "Completed")) = [] :=
        List.filter_eq_nil_iff.mpr (fun t ht => by simp [hall t ht])
      rw [determine_cons, hEmIP, if_pos rfl, hfNC]
      rfl
    · rintro ⟨t0, ht0, hne0⟩
      have ht0m : t0 ∈ (a :: l).filter (fun t => !(t.status == "Completed")) :=
        List.mem_filter.mpr ⟨ht0, by simp [hne0]⟩
      have hne : (a :: l).filter (fun t => !(t.status == "Completed")) ≠ [] :=
        List.ne_nil_of_mem ht0m
      have hEmNC : ((a :: l).filter (fun t => !(t.status == "Completed"))).isEmpty = false := by
        cases hi : (a :: l).filter (fun t => !(t.status == "Completed")) with
        | nil => exact absurd hi hne
        | cons x xs => rfl
      rw [determine_cons, hEmIP, if_pos rfl, hEmNC, if_neg Bool.false_ne_true]
      obtain ⟨x, xs, hx⟩ := sort_cons_of_ne_nil ascRel hne
      have hhead : (List.insertionSort ascRel
          ((a :: l).filter (fun t => !(t.status == "Completed")))).head? = some x := by
        rw [hx]; rfl
      have hmem := head_sort_mem hhead
      refine ⟨x, hhead, List.mem_of_mem_filter hmem, ?_, ?_⟩
      · have := (List.mem_filter.mp hmem).2
        simpa using this
      · intro t ht hstt
        have htm : t ∈ (a :: l).filter (fun t => !(t.status == "Completed")) :=
          List.mem_filter.mpr ⟨ht, by simp [hstt]⟩
        rcases head_sort_rel hhead t htm with rfl | hr
        · exact pyListLe_refl _
        · exact hr

/-- C3 witness: with only a Completed record the policy returns none,
and from Upcoming-17:00 together with Completed-15:00 it returns the
Upcoming record. -/
theorem claim_C3_witness :
    ((∀ t ∈ [c3A, c3B], t.status = "Completed") →
      determine_which_tournament_to_display [c3A, c3B] = none) ∧
    determine_which_tournament_to_display [c3B] = none ∧
    determine_which_tournament_to_display [c3A, c3B] = some c3A :=
  ⟨(claim_C3 [c3A, c3B] (by decide)).1,
   (claim_C3 [c3B] (by decide)).1 (by decide),
   by decide⟩

/-- C10.  The Selection Policy returns none or an element of its input
unchanged, a returned element never has status Completed, and the
empty input yields none. -/
theorem claim_C10 :
    (∀ ts : List TournamentInfo,
      determine_which_tournament_to_display ts = none ∨
      ∃ r, r ∈ ts ∧ determine_which_tournament_to_display ts = some r ∧
        r.status ≠ "Completed") ∧
    determine_which_tournament_to_display ([] : List TournamentInfo) = none := by
  refine ⟨fun ts => ?_, rfl⟩
  cases ts with
  | nil => left; rfl
  | cons a l =>
    rw [determine_cons]
    cases hEm : ((a :: l).filter (fun t => t.status == "In Progress")).isEmpty with
    | true =>
      rw [if_pos rfl]
      cases hEn : ((a :: l).filter (fun t => !(t.status == "Completed"))).isEmpty with
      | true => left; rw [if_pos rfl]
      | false =>
        right
        rw [if_neg Bool.false_ne_true]
        have hne : (a :: l).filter (fun t => !(t.status == "Completed")) ≠ [] := by
          intro hq; rw [hq] at hEn; cases hEn
        obtain ⟨x, xs, hx⟩ := sort_cons_of_ne_nil ascRel hne
        have hhead : (List.insertionSort ascRel
            ((a :: l).filter (fun t => !(t.status == "Completed")))).head? = some x := by
          rw [hx]; rfl
        have hmem := head_sort_mem hhead
        exact ⟨x, List.mem_of_mem_filter hmem, hhead, by
          have := (List.mem_filter.mp hmem).2
          simpa using this⟩
    | false =>
      rw [if_neg Bool.false_ne_true]
      right
      have hne : (a :: l).filter (fun t => t.status == "In Progress") ≠ [] := by
        intro hq; rw [hq] at hEm; cases hEm
      by_cases hlen : 1 < ((a :: l).filter (fun t => t.status == "In Progress")).length
      · rw [if_pos hlen]
        obtain ⟨x, xs, hx⟩ := sort_cons_of_ne_nil descRel hne
        have hhead : (List.insertionSort descRel
            ((a :: l).filter (fun t => t.status == "In Progress"))).head? = some x := by
          rw [hx]; rfl
        have hmem := head_sort_mem hhead
        refine ⟨x, List.mem_of_mem_filter hmem, hhead, ?_⟩
        have hst := eq_of_beq (List.mem_filter.mp hmem).2
        rw [hst]; decide
      · rw [if_neg hlen]
        obtain ⟨x, xs, hx⟩ : ∃ x xs,
            (a :: l).filter (fun t => t.status == "In Progress") = x :: xs := by
          cases hi : (a :: l).filter (fun t => t.status == "In Progress") with
          | nil => exact absurd hi hne
          | cons x xs => exact ⟨x, xs, rfl⟩
        have hmem : x ∈ (a :: l).filter (fun t => t.status == "In Progress") := by
          rw [hx]; exact List.mem_cons_self x xs
        refine ⟨x, List.mem_of_mem_filter hmem, by rw [hx]; rfl, ?_⟩
        have hst := eq_of_beq (List.mem_filter.mp hmem).2
        rw [hst]; decide

/-! ### Start-time extraction claims -/

/-- C1.  On the spec's own fallback example card the code does not
return the last time token in document order: the second fallback
pattern re-matches the minute fragments of the `H:MM` times, the
candidate list is pattern-major (`6:00 PM`, `6:30 PM`, `00 PM`,
`30 PM`), every candidate's context window contains an exclusion
keyword, and the final fallback therefore yields the fragment
`"30 PM"`, not `"6:30 PM"`. -/
theorem claim_C1 :
    extractStartTime c1Card = some "30 PM" ∧
    (allTimesFound c1Card.data).map TimeInfo.time =
      ["6:00 PM", "6:30 PM", "00 PM", "30 PM"] ∧
    (allTimesFound c1Card.data).filter (fun ti => !isExcluded ti) = [] ∧
    extractStartTime c1Card ≠ some "6:30 PM" := by
  exact ⟨by decide, by decide, by decide, by decide⟩

/-- C5 counterexample: `"7:00 P.M."` does not parse to the same value
as `"7:00 PM"` — it is rejected outright. -/
theorem claim_C5_counterexample :
    parse_time_string "7:00 P.M." = none ∧
    parse_time_string "7:00 PM" = some (19, 0) := by
  exact ⟨by decide, by decide⟩

/-- C5 (amended).  The Time Parser strips surrounding whitespace and
accepts any letter case of the meridiem, but does not normalize
meridiem punctuation: `"7:00 P.M."` fails every accepted format and is
unparseable, while punctuated meridiems are tolerated only by the
Field Extractor's search patterns, which hand the raw token on. -/
theorem claim_C5 :
    parse_time_string "7:00 PM" = some (19, 0) ∧
    parse_time_string "7:00 pm" = some (19, 0) ∧
    parse_time_string "  7:00   PM  " = some (19, 0) ∧
    parse_time_string "7:00 P.M." = none ∧
    extractStartTime "Start: 7:00 P.M." = some "7:00 P.M." := by
  exact ⟨by decide, by decide, by decide, by decide, by decide⟩

/-- C7.  The payout-dataset reference is the 20-position dataset
exactly when the lower-cased tournament name contains `"8-ball"`, and
the 15-position dataset otherwise; `"Sunday 8-Ball Shootout"` maps to
the 20-position dataset. -/
theorem claim_C7 :
    (∀ name : String, payoutFor name =
      if containsStr (pyLower name) "8-ball" then "payouts20.json"
      else "payouts15.json") ∧
    payoutFor "Sunday 8-Ball Shootout" = "payouts20.json" ∧
    payoutFor "Tuesday 9-Ball" = "payouts15.json" := by
  refine ⟨fun name => ?_, by decide, by decide⟩
  rcases eq_or_ne name "" with h | h
  · subst h; rfl
  · have hb : (name == "") = false := by simpa using h
    simp [payoutFor, hb]

/-! ### The priority-pattern precedence (C4) -/

theorem orElse_eq_some {α : Type} {a b : Option α} {x : α} (h : (a <|> b) = some x) :
    a = some x ∨ (a = none ∧ b = some x) := by
  cases a with
  | some y => left; simpa using h
  | none => right; exact ⟨rfl, by simpa using h⟩

theorem digit_not_space (d : Char) (h : d.isDigit = true) : pySpace d = false := by
  by_contra hc
  simp only [Bool.not_eq_false] at hc
  simp only [pySpace, Bool.or_eq_true, decide_eq_true_eq] at hc
  have hd : d = ' ' ∨ d = '\t' ∨ d = '\n' ∨ d = '\r' ∨ d = '\x0b' ∨ d = '\x0c' := by
    tauto
  rcases hd with h1 | h1 | h1 | h1 | h1 | h1 <;> (subst h1; exact absurd h (by decide))

theorem mTime_shape {cs : List Char} {n : Nat} (h : mTime cs = some n) :
    ∃ d t2, cs = d :: t2 ∧ d.isDigit = true ∧ 1 ≤ n := by
  unfold mTime at h
  rcases orElse_eq_some h with h1 | ⟨-, h1⟩
  · cases cs with
    | nil => exact absurd h1 (by simp)
    | cons a t =>
      cases t with
      | nil => exact absurd h1 (by simp)
      | cons b r =>
        dsimp only at h1
        by_cases hd : (a.isDigit && b.isDigit) = true
        · rw [if_pos hd] at h1
          rcases Option.map_eq_some'.mp h1 with ⟨k, -, hk⟩
          exact ⟨a, b :: r, rfl,
            (by simpa using hd : a.isDigit = true ∧ b.isDigit = true).1, by omega⟩
        · rw [if_neg hd] at h1; cases h1
  · cases cs with
    | nil => exact absurd h1 (by simp)
    | cons a t =>
      dsimp only at h1
      by_cases hd : a.isDigit = true
      · rw [if_pos hd] at h1
        rcases Option.map_eq_some'.mp h1 with ⟨k, -, hk⟩
        exact ⟨a, t, rfl, hd, by omega⟩
      · rw [if_neg hd] at h1; cases h1

theorem captureTime_shape {r : List Char} {cap : List Char}
    (h : captureTime r = some cap) : ∃ d t2, cap = d :: t2 ∧ d.isDigit = true := by
  unfold captureTime at h
  rcases Option.map_eq_some'.mp h with ⟨n, hn, hcap⟩
  rcases mTime_shape hn with ⟨d, t2, rfl, hd, hge⟩
  cases n with
  | zero => omega
  | succ m =>
    rw [← hcap]
    exact ⟨d, t2.take m, rfl, hd⟩

theorem strip_ne_nil_of_digit_head {d : Char} {t2 : List Char} (hd : d.isDigit = true) :
    pyStripL (d :: t2) ≠ [] := by
  have hns : pySpace d = false := digit_not_space d hd
  intro hq
  have h0 : (d :: t2).dropWhile pySpace = d :: t2 := by
    rw [List.dropWhile_cons, hns]
    rw [if_neg Bool.false_ne_true]
  unfold pyStripL at hq
  rw [h0] at hq
  have h1 : (d :: t2).reverse.dropWhile pySpace = [] := by
    simpa using congrArg List.reverse hq
  have h2 := List.dropWhile_eq_nil_iff.mp h1 d
    (List.mem_reverse.mpr (List.mem_cons_self d t2))
  rw [hns] at h2
  cases h2

theorem coreStart_shape {cs cap : List Char} (h : coreStart cs = some cap) :
    ∃ r, captureTime r = some cap := by
  unfold coreStart at h
  rcases Option.bind_eq_some.mp h with ⟨r1, -, h2⟩
  rcases Option.bind_eq_some.mp h2 with ⟨r3, -, h4⟩
  exact ⟨r3, h4⟩

theorem pat1At_shape {cs cap : List Char} (h : pat1At cs = some cap) :
    ∃ r, captureTime r = some cap := by
  unfold pat1At at h
  rcases orElse_eq_some h with h1 | ⟨-, h1⟩
  · rcases Option.bind_eq_some.mp h1 with ⟨r1, -, h2⟩
    rcases Option.bind_eq_some.mp h2 with ⟨r2, -, h3⟩
    exact coreStart_shape h3
  · exact coreStart_shape h1

theorem pat2At_shape {cs cap : List Char} (h : pat2At cs = some cap) :
    ∃ r, captureTime r = some cap := by
  unfold pat2At at h
  rcases orElse_eq_some h with h1 | ⟨-, h1⟩
  · rcases Option.bind_eq_some.mp h1 with ⟨r1, -, h2⟩
    rcases Option.bind_eq_some.mp h2 with ⟨r2, -, h3⟩
    exact coreStart_shape h3
  · exact coreStart_shape h1

theorem pat3At_shape {cs cap : List Char} (h : pat3At cs = some cap) :
    ∃ r, captureTime r = some cap := by
  unfold pat3At at h
  rcases Option.bind_eq_some.mp h with ⟨r1, -, h2⟩
  rcases Option.bind_eq_some.mp h2 with ⟨r2, -, h3⟩
  rcases Option.bind_eq_some.mp h3 with ⟨r3, -, h4⟩
  rcases Option.bind_eq_some.mp h4 with ⟨r4, -, h5⟩
  exact ⟨r4, h5⟩

theorem pat4At_shape {cs cap : List Char} (h : pat4At cs = some cap) :
    ∃ r, captureTime r = some cap := by
  unfold pat4At at h
  rcases Option.bind_eq_some.mp h with ⟨r1, -, h2⟩
  rcases Option.bind_eq_some.mp h2 with ⟨r3, -, h4⟩
  exact ⟨r3, h4⟩

theorem searchAt_shape {m : List Char → Option (List Char)}
    (hm : ∀ cs cap, m cs = some cap → ∃ r, captureTime r = some cap) :
    ∀ text cap, searchAt m text = some cap → ∃ r, captureTime r = some cap := by
  intro text
  induction text with
  | nil => intro cap h; exact hm [] cap h
  | cons c rest ih =>
    intro cap h
    unfold searchAt at h
    rcases orElse_eq_some h with h1 | ⟨-, h1⟩
    · exact hm _ _ h1
    · exact ih _ h1

theorem priorityTime_ne_empty {text : List Char} {s : String}
    (h : priorityTime text = some s) : s ≠ "" := by
  unfold priorityTime at h
  rcases Option.map_eq_some'.mp h with ⟨cap, hcap, hs⟩
  have hshape : ∃ r, captureTime r = some cap := by
    rcases orElse_eq_some hcap with h1 | ⟨-, h1⟩
    · exact searchAt_shape (fun _ _ => pat1At_shape) _ _ h1
    · rcases orElse_eq_some h1 with h2 | ⟨-, h2⟩
      · exact searchAt_shape (fun _ _ => pat2At_shape) _ _ h2
      · rcases orElse_eq_some h2 with h3 | ⟨-, h3⟩
        · exact searchAt_shape (fun _ _ => pat3At_shape) _ _ h3
        · exact searchAt_shape (fun _ _ => pat4At_shape) _ _ h3
  rcases hshape with ⟨r, hr⟩
  rcases captureTime_shape hr with ⟨d, t2, rfl, hd⟩
  rw [← hs]
  intro hq
  have hnil : pyStripL (d :: t2) = [] := by
    simpa using congrArg String.data hq
  exact strip_ne_nil_of_digit_head hd hnil

/-- C4.  Whenever one of the four labelled start-time patterns matches
the card text (first pattern in priority order, leftmost match), the
extracted start time is exactly its captured time token: the fallback
scan and its exclusion heuristics are never consulted. -/
theorem claim_C4 (text : String) (t : String)
    (h : priorityTime text.data = some t) :
    extractStartTime text = some t := by
  have hne := priorityTime_ne_empty h
  simp [extractStartTime, h, hne]

/-- C4 witness: on a card holding both a Registration line and a
Tournament Start line, the labelled pattern wins and the extracted
time is `"7:00 PM"`. -/
theorem claim_C4_witness :
    priorityTime c4Card.data = some "7:00 PM" ∧
    extractStartTime c4Card = some "7:00 PM" := by
  have h : priorityTime c4Card.data = some "7:00 PM" := by decide
  exact ⟨h, claim_C4 c4Card "7:00 PM" h⟩

/-! ### The display agents (C8) -/

/-- C8 counterexample: two persisted records whose `display_tournament`
flag is true but whose display decision is false — one per agent — so
neither agent trusts the flag verbatim. -/
theorem claim_C8_counterexample :
    c8CattRecord.display_tournament = true ∧
    catt_should_display_tournament c8CattRecord = false ∧
    c8SmartRecord.display_tournament = true ∧
    smart_should_display_tournament c8SmartRecord = false := by
  exact ⟨by decide, by decide, by decide, by decide⟩

/-- C8 (amended).  Each agent's display decision equals the persisted
`display_tournament` flag AND-ed with its own sanity checks:
`catt_monitor` additionally requires a whitelisted status and a name
not containing "no tournament"; `smart_switcher_status` requires a
non-sentinel name and a present, non-empty URL.  When the checks pass
the flag is followed verbatim; when they fail the decision is false
regardless of the flag. -/
theorem claim_C8 (d : OutputData) :
    catt_should_display_tournament d = (cattChecksPass d && d.display_tournament) ∧
    smart_should_display_tournament d = (smartChecksPass d && d.display_tournament) := by
  constructor
  · unfold catt_should_display_tournament cattChecksPass
    cases h1 : containsStr (pyLower d.tournament_name) "no tournament"
    · cases h2 : (match d.status with
        | some s => cattStatusWhitelist.contains s
        | none => false) <;> simp
    · simp
  · unfold smart_should_display_tournament smartChecksPass
    cases h1 : (d.tournament_name == "No tournaments in progress")
    · cases h2 : d.tournament_url with
      | none => simp
      | some u =>
        rcases eq_or_ne u "" with rfl | hu
        · simp
        · have h3 : (u == "") = false := by simpa using hu
          simp [h3, hu]
    · simp

/-! ### The Time Parser format set (C6) -/

theorem mem_of_mem_dropWhile {p : Char → Bool} :
    ∀ {l : List Char} {c : Char}, c ∈ l.dropWhile p → c ∈ l := by
  intro l
  induction l with
  | nil => intro c h; simp at h
  | cons a t ih =>
    intro c h
    rw [List.dropWhile_cons] at h
    by_cases hp : p a = true
    · rw [if_pos hp] at h
      exact List.mem_cons_of_mem a (ih h)
    · rw [if_neg hp] at h
      exact h

theorem pyStripL_subset {cs : List Char} {c : Char} (h : c ∈ pyStripL cs) : c ∈ cs := by
  unfold pyStripL at h
  rw [List.mem_reverse] at h
  have h2 := mem_of_mem_dropWhile h
  rw [List.mem_reverse] at h2
  exact mem_of_mem_dropWhile h2

theorem pI2_sub {cs : List Char} {h : Nat} {r : List Char} (hp : pI2 cs = some (h, r)) :
    (∃ a t, cs = a :: t ∧ a.isDigit = true) ∧ ∀ c ∈ r, c ∈ cs := by
  unfold pI2 at hp
  split at hp
  · rename_i a b t
    by_cases h1 : (a = '1' && '0' ≤ b && b ≤ '2') = true
    · rw [if_pos h1] at hp
      simp only [decide_eq_true_eq, Bool.and_eq_true] at h1
      obtain ⟨⟨rfl, -⟩, -⟩ := h1
      injection hp with hp1
      injection hp1 with _ hp2
      subst hp2
      exact ⟨⟨'1', b :: t, rfl, by decide⟩,
        fun c hc => List.mem_cons_of_mem _ (List.mem_cons_of_mem _ hc)⟩
    · rw [if_neg h1] at hp
      by_cases h2 : (a = '0' && '1' ≤ b && b ≤ '9') = true
      · rw [if_pos h2] at hp
        simp only [decide_eq_true_eq, Bool.and_eq_true] at h2
        obtain ⟨⟨rfl, -⟩, -⟩ := h2
        injection hp with hp1
        injection hp1 with _ hp2
        subst hp2
        exact ⟨⟨'0', b :: t, rfl, by decide⟩,
          fun c hc => List.mem_cons_of_mem _ (List.mem_cons_of_mem _ hc)⟩
      · rw [if_neg h2] at hp; cases hp
  · cases hp

theorem u32le {a b : UInt32} : a ≤ b ↔ a.toNat ≤ b.toNat := by
  rw [UInt32.le_def, BitVec.le_def]
  rfl

theorem pI1_sub {cs : List Char} {h : Nat} {r : List Char} (hp : pI1 cs = some (h, r)) :
    (∃ a t, cs = a :: t ∧ a.isDigit = true) ∧ ∀ c ∈ r, c ∈ cs := by
  unfold pI1 at hp
  split at hp
  · rename_i a t
    by_cases h1 : ('1' ≤ a && a ≤ '9') = true
    · rw [if_pos h1] at hp
      simp only [decide_eq_true_eq, Bool.and_eq_true] at h1
      injection hp with hp1
      injection hp1 with _ hp2
      subst hp2
      refine ⟨⟨a, t, rfl, ?_⟩, fun c hc => List.mem_cons_of_mem _ hc⟩
      obtain ⟨ha1, ha2⟩ := h1
      simp only [Char.isDigit, Bool.and_eq_true, decide_eq_true_eq, ge_iff_le]
      rw [Char.le_def, u32le] at ha1 ha2
      rw [u32le, u32le]
      have e1 : ('1' : Char).val.toNat = 49 := rfl
      have e9 : ('9' : Char).val.toNat = 57 := rfl
      have e48 : UInt32.toNat 48 = 48 := rfl
      have e57 : UInt32.toNat 57 = 57 := rfl
      rw [e1] at ha1
      rw [e9] at ha2
      rw [e48, e57]
      omega
    · rw [if_neg h1] at hp; cases hp
  · cases hp

theorem pM2_sub {cs : List Char} {m : Nat} {r : List Char} (hp : pM2 cs = some (m, r)) :
    ∀ c ∈ r, c ∈ cs := by
  unfold pM2 at hp
  split at hp
  · rename_i a b t
    by_cases h1 : ('0' ≤ a && a ≤ '5' && b.isDigit) = true
    · rw [if_pos h1] at hp
      injection hp with hp1
      injection hp1 with _ hp2
      subst hp2
      exact fun c hc => List.mem_cons_of_mem _ (List.mem_cons_of_mem _ hc)
    · rw [if_neg h1] at hp; cases hp
  · cases hp

theorem pM1_sub {cs : List Char} {m : Nat} {r : List Char} (hp : pM1 cs = some (m, r)) :
    ∀ c ∈ r, c ∈ cs := by
  unfold pM1 at hp
  split at hp
  · rename_i a t
    by_cases h1 : a.isDigit = true
    · rw [if_pos h1] at hp
      injection hp with hp1
      injection hp1 with _ hp2
      subst hp2
      exact fun c hc => List.mem_cons_of_mem _ hc
    · rw [if_neg h1] at hp; cases hp
  · cases hp

theorem pWs1_sub {cs r : List Char} (hp : pWs1 cs = some r) : ∀ c ∈ r, c ∈ cs := by
  unfold pWs1 at hp
  split at hp
  · rename_i a t
    by_cases h1 : pySpace a = true
    · rw [if_pos h1] at hp
      injection hp with hp1
      subst hp1
      exact fun c hc => List.mem_cons_of_mem _ (mem_of_mem_dropWhile hc)
    · rw [if_neg h1] at hp; cases hp
  · cases hp

theorem pP_m {cs : List Char} {pm : Bool} {r : List Char} (hp : pP cs = some (pm, r)) :
    ∃ c ∈ cs, c = 'm' ∨ c = 'M' := by
  unfold pP at hp
  split at hp
  · rename_i a b t
    by_cases h1 : (b = 'm' || b = 'M') = true
    · refine ⟨b, List.mem_cons_of_mem a (List.mem_cons_self b t), ?_⟩
      simp only [Bool.or_eq_true, decide_eq_true_eq] at h1
      exact h1
    · rw [if_neg h1] at hp; cases hp
  · cases hp

theorem fmt1m_m {h m : Nat} {r : List Char} {v : Nat × Nat × Bool}
    (hp : fmt1m h m r = some v) : ∃ c ∈ r, c = 'm' ∨ c = 'M' := by
  unfold fmt1m at hp
  rcases Option.bind_eq_some.mp hp with ⟨r4, h4, h5⟩
  rcases Option.bind_eq_some.mp h5 with ⟨⟨pm, r5⟩, h6, -⟩
  rcases pP_m h6 with ⟨c, hc, hcm⟩
  exact ⟨c, pWs1_sub h4 c hc, hcm⟩

theorem fmt1h_m {h : Nat} {cs : List Char} {v : Nat × Nat × Bool}
    (hp : fmt1h h cs = some v) : ∃ c ∈ cs, c = 'm' ∨ c = 'M' := by
  unfold fmt1h at hp
  split at hp
  · rename_i r2
    rcases orElse_eq_some hp with h1 | ⟨-, h1⟩
    · rcases Option.bind_eq_some.mp h1 with ⟨⟨m, r3⟩, h2, h3⟩
      dsimp only at h3
      rcases fmt1m_m h3 with ⟨c, hc, hcm⟩
      exact ⟨c, List.mem_cons_of_mem _ (pM2_sub h2 c hc), hcm⟩
    · rcases Option.bind_eq_some.mp h1 with ⟨⟨m, r3⟩, h2, h3⟩
      dsimp only at h3
      rcases fmt1m_m h3 with ⟨c, hc, hcm⟩
      exact ⟨c, List.mem_cons_of_mem _ (pM1_sub h2 c hc), hcm⟩
  · cases hp

theorem fmt1_dm {cs : List Char} {v : Nat × Nat × Bool} (hp : fmt1 cs = some v) :
    (∃ a t, cs = a :: t ∧ a.isDigit = true) ∧ ∃ c ∈ cs, c = 'm' ∨ c = 'M' := by
  unfold fmt1 at hp
  rcases orElse_eq_some hp with h1 | ⟨-, h1⟩ <;>
  · rcases Option.bind_eq_some.mp h1 with ⟨⟨h0, r⟩, h2, h3⟩
    dsimp only at h3
    first
    | (refine ⟨(pI2_sub h2).1, ?_⟩
       rcases fmt1h_m h3 with ⟨c, hc, hcm⟩
       exact ⟨c, (pI2_sub h2).2 c hc, hcm⟩)
    | (refine ⟨(pI1_sub h2).1, ?_⟩
       rcases fmt1h_m h3 with ⟨c, hc, hcm⟩
       exact ⟨c, (pI1_sub h2).2 c hc, hcm⟩)

theorem fmt2m_m {h m : Nat} {r : List Char} {v : Nat × Nat × Bool}
    (hp : fmt2m h m r = some v) : ∃ c ∈ r, c = 'm' ∨ c = 'M' := by
  unfold fmt2m at hp
  rcases Option.bind_eq_some.mp hp with ⟨⟨pm, r4⟩, h6, -⟩
  exact pP_m h6

theorem fmt2h_m {h : Nat} {cs : List Char} {v : Nat × Nat × Bool}
    (hp : fmt2h h cs = some v) : ∃ c ∈ cs, c = 'm' ∨ c = 'M' := by
  unfold fmt2h at hp
  split at hp
  · rename_i r2
    rcases orElse_eq_some hp with h1 | ⟨-, h1⟩ <;>
    · rcases Option.bind_eq_some.mp h1 with ⟨⟨m, r3⟩, h2, h3⟩
      dsimp only at h3
      rcases fmt2m_m h3 with ⟨c, hc, hcm⟩
      first
      | exact ⟨c, List.mem_cons_of_mem _ (pM2_sub h2 c hc), hcm⟩
      | exact ⟨c, List.mem_cons_of_mem _ (pM1_sub h2 c hc), hcm⟩
  · cases hp

theorem fmt2_dm {cs : List Char} {v : Nat × Nat × Bool} (hp : fmt2 cs = some v) :
    (∃ a t, cs = a :: t ∧ a.isDigit = true) ∧ ∃ c ∈ cs, c = 'm' ∨ c = 'M' := by
  unfold fmt2 at hp
  rcases orElse_eq_some hp with h1 | ⟨-, h1⟩ <;>
  · rcases Option.bind_eq_some.mp h1 with ⟨⟨h0, r⟩, h2, h3⟩
    dsimp only at h3
    first
    | (refine ⟨(pI2_sub h2).1, ?_⟩
       rcases fmt2h_m h3 with ⟨c, hc, hcm⟩
       exact ⟨c, (pI2_sub h2).2 c hc, hcm⟩)
    | (refine ⟨(pI1_sub h2).1, ?_⟩
       rcases fmt2h_m h3 with ⟨c, hc, hcm⟩
       exact ⟨c, (pI1_sub h2).2 c hc, hcm⟩)

theorem fmt3h_m {h : Nat} {r : List Char} {v : Nat × Nat × Bool}
    (hp : fmt3h h r = some v) : ∃ c ∈ r, c = 'm' ∨ c = 'M' := by
  unfold fmt3h at hp
  rcases Option.bind_eq_some.mp hp with ⟨r2, h4, h5⟩
  rcases Option.bind_eq_some.mp h5 with ⟨⟨pm, r3⟩, h6, -⟩
  rcases pP_m h6 with ⟨c, hc, hcm⟩
  exact ⟨c, pWs1_sub h4 c hc, hcm⟩

theorem fmt3_dm {cs : List Char} {v : Nat × Nat × Bool} (hp : fmt3 cs = some v) :
    (∃ a t, cs = a :: t ∧ a.isDigit = true) ∧ ∃ c ∈ cs, c = 'm' ∨ c = 'M' := by
  unfold fmt3 at hp
  rcases orElse_eq_some hp with h1 | ⟨-, h1⟩ <;>
  · rcases Option.bind_eq_some.mp h1 with ⟨⟨h0, r⟩, h2, h3⟩
    dsimp only at h3
    first
    | (refine ⟨(pI2_sub h2).1, ?_⟩
       rcases fmt3h_m h3 with ⟨c, hc, hcm⟩
       exact ⟨c, (pI2_sub h2).2 c hc, hcm⟩)
    | (refine ⟨(pI1_sub h2).1, ?_⟩
       rcases fmt3h_m h3 with ⟨c, hc, hcm⟩
       exact ⟨c, (pI1_sub h2).2 c hc, hcm⟩)

theorem fmt4h_m {h : Nat} {r : List Char} {v : Nat × Nat × Bool}
    (hp : fmt4h h r = some v) : ∃ c ∈ r, c = 'm' ∨ c = 'M' := by
  unfold fmt4h at hp
  rcases Option.bind_eq_some.mp hp with ⟨⟨pm, r2⟩, h6, -⟩
  exact pP_m h6

theorem fmt4_dm {cs : List Char} {v : Nat × Nat × Bool} (hp : fmt4 cs = some v) :
    (∃ a t, cs = a :: t ∧ a.isDigit = true) ∧ ∃ c ∈ cs, c = 'm' ∨ c = 'M' := by
  unfold fmt4 at hp
  rcases orElse_eq_some hp with h1 | ⟨-, h1⟩ <;>
  · rcases Option.bind_eq_some.mp h1 with ⟨⟨h0, r⟩, h2, h3⟩
    dsimp only at h3
    first
    | (refine ⟨(pI2_sub h2).1, ?_⟩
       rcases fmt4h_m h3 with ⟨c, hc, hcm⟩
       exact ⟨c, (pI2_sub h2).2 c hc, hcm⟩)
    | (refine ⟨(pI1_sub h2).1, ?_⟩
       rcases fmt4h_m h3 with ⟨c, hc, hcm⟩
       exact ⟨c, (pI1_sub h2).2 c hc, hcm⟩)

theorem parse_some_structure {s : String} {v : Nat × Nat}
    (h : parse_time_string s = some v) :
    (∃ c ∈ s.data, c.isDigit = true) ∧ ∃ c ∈ s.data, c = 'm' ∨ c = 'M' := by
  unfold parse_time_string at h
  dsimp only at h
  split at h
  · rename_i h0 m0 pm0 heq
    have hfmt : (∃ a t, pyStripL s.data = a :: t ∧ a.isDigit = true) ∧
        ∃ c ∈ pyStripL s.data, c = 'm' ∨ c = 'M' := by
      rcases orElse_eq_some heq with h1 | ⟨-, h1⟩
      · exact fmt1_dm h1
      · rcases orElse_eq_some h1 with h2 | ⟨-, h2⟩
        · exact fmt2_dm h2
        · rcases orElse_eq_some h2 with h3 | ⟨-, h3⟩
          · exact fmt3_dm h3
          · exact fmt4_dm h3
    obtain ⟨⟨a, t, hat, hd⟩, ⟨c, hc, hcm⟩⟩ := hfmt
    refine ⟨⟨a, ?_, hd⟩, ⟨c, pyStripL_subset hc, hcm⟩⟩
    exact pyStripL_subset (hat ▸ List.mem_cons_self a t)
  · cases h

set_option maxRecDepth 8000 in
/-- C6.  Every string of the accepted format set (the four spec shapes
over all hours 1–12, minutes 0–59 and both meridiems) parses to the
expected 24-hour time; a string with no digit, or with no meridiem
letter, parses to nothing (the embedding is total, modelling that the
parser never raises). -/
theorem claim_C6 :
    (∀ h : Fin 12, ∀ pm : Bool,
      (∀ m : Fin 60,
        parse_time_string (specFmtColonSpace (h.val + 1) m.val pm) =
          some (to24 (h.val + 1) pm, m.val) ∧
        parse_time_string (specFmtColon (h.val + 1) m.val pm) =
          some (to24 (h.val + 1) pm, m.val)) ∧
      parse_time_string (specFmtSpace (h.val + 1) pm) = some (to24 (h.val + 1) pm, 0) ∧
      parse_time_string (specFmtBare (h.val + 1) pm) = some (to24 (h.val + 1) pm, 0)) ∧
    (∀ s : String, (∀ c ∈ s.data, c.isDigit = false) → parse_time_string s = none) ∧
    (∀ s : String, (∀ c ∈ s.data, c ≠ 'm' ∧ c ≠ 'M') → parse_time_string s = none) := by
  refine ⟨by decide, fun s hs => ?_, fun s hs => ?_⟩
  · cases hq : parse_time_string s with
    | none => rfl
    | some v =>
      rcases (parse_some_structure hq).1 with ⟨c, hc, hcd⟩
      rw [hs c hc] at hcd
      cases hcd
  · cases hq : parse_time_string s with
    | none => rfl
    | some v =>
      rcases (parse_some_structure hq).2 with ⟨c, hc, hcm⟩
      rcases hcm with rfl | rfl
      · exact absurd rfl (hs _ hc).1
      · exact absurd rfl (hs _ hc).2

/-- C6 witness: the theorem applied at concrete inputs — `"7:30 PM"`
parses to 19:30 and the digit-free `"banana"` parses to nothing. -/
theorem claim_C6_witness :
    parse_time_string "7:30 PM" = some (19, 30) ∧
    parse_time_string "banana" = none := by
  constructor
  · have h1 := ((claim_C6.1 ⟨6, by omega⟩ true).1 ⟨30, by omega⟩).1
    have e1 : specFmtColonSpace 7 30 true = "7:30 PM" := rfl
    have e2 : to24 7 true = 19 := rfl
    rw [e1, e2] at h1
    exact h1
  · exact claim_C6.2.1 "banana" (by decide)

/-! ### Pipeline determinism and idempotence (C9)

Every definition of the engine is a pure function, so determinism on
identical inputs is inherent to the embedding; the substantive facts
proved here are that the wall-clock timestamp flows only into
`found_at` at extraction and `last_updated` at output, so re-running
the pipeline on unchanged cards and the same "today" reproduces every
other field exactly. -/

theorem extractCard_found (today now : String) (c : Card) :
    extractCard today now c =
      (extractCard today "" c).map (fun t => { t with found_at := now }) := by
  unfold extractCard
  cases hv : containsStr c.text VENUE_NAME <;>
    cases hc : containsStr c.text VENUE_CITY <;> rfl

theorem search_found (today now : String) (cards : List Card) :
    search_tournaments_on_page today now cards =
      (search_tournaments_on_page today "" cards).map
        (fun t => { t with found_at := now }) := by
  unfold search_tournaments_on_page
  rw [List.map_filterMap]
  have he : (fun x => (extractCard today "" x).map (fun t => { t with found_at := now })) =
      extractCard today now :=
    funext fun x => (extractCard_found today now x).symm
  rw [he]

theorem todays_found (today now : String) (cards : List Card) :
    get_all_todays_tournaments today now cards =
      (get_all_todays_tournaments today "" cards).map
        (fun t => { t with found_at := now }) := by
  unfold get_all_todays_tournaments
  rw [search_found today now cards, List.filter_map]
  have he : ((fun t : TournamentInfo => t.date == some today) ∘
      (fun t => { t with found_at := now })) =
      fun t : TournamentInfo => t.date == some today :=
    funext fun t => rfl
  rw [he]

theorem isEmpty_map_ti (g : TournamentInfo → TournamentInfo)
    (l : List TournamentInfo) : (l.map g).isEmpty = l.isEmpty := by
  cases l <;> rfl

theorem orderedInsert_found (now : String) (r : TournamentInfo → TournamentInfo → Prop)
    [DecidableRel r]
    (hg : ∀ a b : TournamentInfo,
      r { a with found_at := now } { b with found_at := now } ↔ r a b) :
    ∀ (a : TournamentInfo) (l : List TournamentInfo),
      List.orderedInsert r { a with found_at := now }
          (l.map (fun t => { t with found_at := now })) =
        (List.orderedInsert r a l).map (fun t => { t with found_at := now }) := by
  intro a l
  induction l with
  | nil => rfl
  | cons b u ih =>
    simp only [List.map_cons, List.orderedInsert]
    by_cases hr : r a b
    · rw [if_pos ((hg a b).mpr hr), if_pos hr, List.map_cons, List.map_cons]
    · rw [if_neg (fun hc => hr ((hg a b).mp hc)), if_neg hr, List.map_cons, ih]

theorem insertionSort_found (now : String) (r : TournamentInfo → TournamentInfo → Prop)
    [DecidableRel r]
    (hg : ∀ a b : TournamentInfo,
      r { a with found_at := now } { b with found_at := now } ↔ r a b) :
    ∀ l : List TournamentInfo,
      List.insertionSort r (l.map (fun t => { t with found_at := now })) =
        (List.insertionSort r l).map (fun t => { t with found_at := now }) := by
  intro l
  induction l with
  | nil => rfl
  | cons a u ih =>
    simp only [List.map_cons, List.insertionSort]
    rw [ih, orderedInsert_found now r hg]

theorem determine_found (now : String) (ts : List TournamentInfo) :
    determine_which_tournament_to_display (ts.map (fun t => { t with found_at := now })) =
      (determine_which_tournament_to_display ts).map
        (fun t => { t with found_at := now }) := by
  cases ts with
  | nil => rfl
  | cons a l =>
    have hIP : List.filter (fun t : TournamentInfo => t.status == "In Progress")
        (({ a with found_at := now } : TournamentInfo) ::
          l.map (fun t => { t with found_at := now })) =
        ((a :: l).filter (fun t => t.status == "In Progress")).map
          (fun t => { t with found_at := now }) := by
      change List.filter (fun t : TournamentInfo => t.status == "In Progress")
        ((a :: l).map (fun t => { t with found_at := now })) = _
      rw [List.filter_map]
      have he : ((fun t : TournamentInfo => t.status == "In Progress") ∘
          (fun t => { t with found_at := now })) =
          fun t : TournamentInfo => t.status == "In Progress" :=
        funext fun t => rfl
      rw [he]
    have hNC : List.filter (fun t : TournamentInfo => !(t.status == "Completed"))
        (({ a with found_at := now } : TournamentInfo) ::
          l.map (fun t => { t with found_at := now })) =
        ((a :: l).filter (fun t => !(t.status == "Completed"))).map
          (fun t => { t with found_at := now }) := by
      change List.filter (fun t : TournamentInfo => !(t.status == "Completed"))
        ((a :: l).map (fun t => { t with found_at := now })) = _
      rw [List.filter_map]
      have he : ((fun t : TournamentInfo => !(t.status == "Completed")) ∘
          (fun t => { t with found_at := now })) =
          fun t : TournamentInfo => !(t.status == "Completed") :=
        funext fun t => rfl
      rw [he]
    rw [List.map_cons, determine_cons, determine_cons]
    rw [hIP, hNC, isEmpty_map_ti, isEmpty_map_ti, List.length_map]
    by_cases hE : ((a :: l).filter (fun t => t.status == "In Progress")).isEmpty = true
    · rw [if_pos hE, if_pos hE]
      by_cases hEY : ((a :: l).filter (fun t => !(t.status == "Completed"))).isEmpty = true
      · rw [if_pos hEY, if_pos hEY]; rfl
      · rw [if_neg hEY, if_neg hEY,
          insertionSort_found now ascRel (fun a b => Iff.rfl), List.head?_map]
    · rw [if_neg hE, if_neg hE]
      by_cases hL : 1 < ((a :: l).filter (fun t => t.status == "In Progress")).length
      · rw [if_pos hL, if_pos hL,
          insertionSort_found now descRel (fun a b => Iff.rfl), List.head?_map]
      · rw [if_neg hL, if_neg hL, List.head?_map]

theorem buildOutput_setFound (sel : Option TournamentInfo) (now m : String) :
    buildOutput (sel.map (fun t => { t with found_at := now })) m = buildOutput sel m := by
  cases sel <;> rfl

/-- C9.  The pipeline is deterministic and idempotent modulo
timestamps: running the Field Extractor at two different capture
instants yields records identical except for `found_at`, and running
the full pipeline (extract → filter to today → select → build) on the
same cards and the same "today" at two different instants yields
persisted records identical except for `last_updated`. -/
theorem claim_C9 (cards : List Card) (today now1 now2 : String) :
    (∀ c : Card, (extractCard today now1 c).map eraseFoundAt =
      (extractCard today now2 c).map eraseFoundAt) ∧
    eraseLastUpdated (fullPipeline cards today now1) =
      eraseLastUpdated (fullPipeline cards today now2) := by
  constructor
  · intro c
    rw [extractCard_found today now1 c, extractCard_found today now2 c]
    cases extractCard today "" c with
    | none => rfl
    | some t => rfl
  · unfold fullPipeline
    rw [todays_found today now1 cards, todays_found today now2 cards,
      determine_found now1 _, determine_found now2 _,
      buildOutput_setFound, buildOutput_setFound]
    cases determine_which_tournament_to_display
        (get_all_todays_tournaments today "" cards) with
    | none => rfl
    | some t => rfl

end TournamentScraper
